import Mathlib

/-!
Verification development for the codap-phone client access layer.

The embedding follows the TypeScript source: the public API module
(getDataContext, getCaseById, getDataFromContext's flattener
dataItemFromChildCase, updateContextWithDataSet, ...) and the endpoint
module (codapRequestHandler, mutatingOperations).  Asynchronous remote
calls are modelled by passing the response the transport would deliver as
an argument and counting the remote calls performed; the process-wide
cache is modelled as an explicit state value threaded through the
operations.  Helper modules (cache, util, actions, types, listeners) are
not part of the reviewed source; their definitions are modelled from the
specification and marked as such.
-/

namespace CodapPhone

/-- A flattened record / a JS object mapping attribute names to values
(`Record<string, unknown>` in the source, values specialised to `Int`). -/
abbrev FlatRecord := String → Option Int

/-- JS object spread `\x7b...a, ...b\x7d`: keys of `b` override keys of `a`. -/
def spreadMerge (a b : FlatRecord) : FlatRecord :=
  fun k =>
    match b k with
    | some v => some v
    | none => a k

/-- `ReturnedCase` from the types module: a case has a numeric id, an
optional parent case id, and its own attribute-value mapping. -/
structure ReturnedCase where
  id : Nat
  parent : Option Nat
  values : FlatRecord

/-- A collection: named, with optional attribute and label content
(optional fields are the ones `fillCollectionWithDefaults` fills in). -/
structure Collection where
  name : String
  attrs : Option (List String)
  labels : Option (List (String × String))
deriving DecidableEq, Repr

/-- A data context: name, title, ordered collection sequence. -/
structure DataContext where
  name : String
  title : String
  collections : List Collection
deriving DecidableEq, Repr

/-- A data row as passed to `insertDataItems` (`Record<string, unknown>`
in the source, modelled as an association list). -/
abbrev Row := List (String × Int)

/-- `Dataset` from the types module: collections plus records. -/
structure Dataset where
  collections : List Collection
  records : List Row
deriving DecidableEq, Repr

/-- A transport response: `\x7bsuccess: boolean, values?\x7d`.  Only the
success flag matters for the properties considered here. -/
structure CodapResponse where
  success : Bool
deriving DecidableEq, Repr

/-! ## Entity cache

Modelled from the spec: the cache module is not part of the reviewed
source.  Three independent keyed stores (context schema by context name,
case by case id, flattened record set by context name); `get` returns
absent unless a `set` for the key happened and no invalidation followed;
invalidating a context's schema entry also drops that context's
record-set entry (the §4.2 coupling); invalidating a case removes only
that case entry. -/

@[ext]
structure CacheState where
  contexts : String → Option DataContext
  records : String → Option (List FlatRecord)
  cases : Nat → Option ReturnedCase

namespace Cache

def getContext (name : String) (st : CacheState) : Option DataContext :=
  st.contexts name

def setContext (name : String) (ctx : DataContext) (st : CacheState) : CacheState :=
  { st with contexts := fun n => if n = name then some ctx else st.contexts n }

/-- Modelled from the spec: invalidating a context's schema entry must
also drop that context's record-set entry. -/
def invalidateContext (name : String) (st : CacheState) : CacheState :=
  { st with
    contexts := fun n => if n = name then none else st.contexts n
    records := fun n => if n = name then none else st.records n }

def getCase (id : Nat) (st : CacheState) : Option ReturnedCase :=
  st.cases id

/-- Modelled from the spec: the case store is keyed by case id only; the
context argument of the source's `Cache.setCase` does not scope the key. -/
def setCase (context : String) (id : Nat) (c : ReturnedCase) (st : CacheState) :
    CacheState :=
  { st with cases := fun i => if i = id then some c else st.cases i }

def invalidateCase (id : Nat) (st : CacheState) : CacheState :=
  { st with cases := fun i => if i = id then none else st.cases i }

def getRecords (name : String) (st : CacheState) : Option (List FlatRecord) :=
  st.records name

def setRecords (name : String) (rs : List FlatRecord) (st : CacheState) : CacheState :=
  { st with records := fun n => if n = name then some rs else st.records n }

end Cache

/-! ## Record flattener (`dataItemFromChildCase`) -/

/-- The flattener nested in `getDataFromContext`: if the case has no
parent, its own values are the result; otherwise look up the parent,
flatten it recursively, and combine via JS object spread
`\x7b...c.values, ...flattenedParent\x7d` (so the parent's flattened
record is spread second).  The `lookup` argument abstracts `getCaseById`;
`fuel` bounds the recursion depth so the function is total in Lean — any
finite parent chain is covered by a large enough fuel. -/
def dataItemFromChildCase (lookup : Nat → Option ReturnedCase) :
    Nat → ReturnedCase → Option FlatRecord
  | 0, _ => none
  | fuel + 1, c =>
    match c.parent with
    | none => some c.values
    | some pid =>
      match lookup pid with
      | none => none
      | some parent =>
        match dataItemFromChildCase lookup fuel parent with
        | none => none
        | some parentRecord => some (spreadMerge c.values parentRecord)

/-- The root→mid→leaf example chain: values `\x7ba:1\x7d`,
`\x7ba:2,b:2\x7d`, `\x7bb:3,c:3\x7d`. -/
def rootCase : ReturnedCase :=
  ⟨1, none, fun k => if k = "a" then some 1 else none⟩

def midCase : ReturnedCase :=
  ⟨2, some 1, fun k => if k = "a" then some 2 else if k = "b" then some 2 else none⟩

def leafCase : ReturnedCase :=
  ⟨3, some 2, fun k => if k = "b" then some 3 else if k = "c" then some 3 else none⟩

def chainLookup : Nat → Option ReturnedCase := fun i =>
  if i = 1 then some rootCase
  else if i = 2 then some midCase
  else if i = 3 then some leafCase
  else none

/-! ## Schema reconciler (`updateContextWithDataSet`) -/

/-- Modelled from the spec: `fillCollectionWithDefaults` from the util
module (not in src/) normalizes a requested collection to the shape of a
stored one by filling in default attribute/label fields. -/
def fillCollectionWithDefaults (c : Collection) : Collection :=
  { c with attrs := some (c.attrs.getD []), labels := some (c.labels.getD []) }

/-- Modelled from the spec: `collectionsEqual` from the util module (not
in src/) — two collection sequences are equal iff they have the same
length and each positional pair has equal name and equal normalized
attribute/label content. -/
def collectionsEqual (xs ys : List Collection) : Bool :=
  xs.length == ys.length &&
    (List.zip xs ys).all fun p =>
      p.1.name == p.2.name &&
        fillCollectionWithDefaults p.1 == fillCollectionWithDefaults p.2

/-- Modelled from the spec: `normalizeDataContext` from the util module
(not in src/) normalizes a returned context by filling each collection's
default fields. -/
def normalizeDataContext (ctx : DataContext) : DataContext :=
  { ctx with collections := ctx.collections.map fillCollectionWithDefaults }

/-- A request built by the actions module (not in src/; each constructor
stands for the action/resource/values payload of the named operation). -/
inductive Request
  | deleteAllCases (context collection : String)
  | createCollections (context : String) (collections : List Collection)
  | deleteCollection (context collection : String)
  | insertDataItems (context : String) (records : List Row)
deriving DecidableEq, Repr

/-- Collection-management (schema) requests: create-collections and
delete-collection. -/
def Request.isCollectionManagement : Request → Bool
  | .createCollections _ _ => true
  | .deleteCollection _ _ => true
  | _ => false

/-- Data-insert requests. -/
def Request.isInsertDataItems : Request → Bool
  | .insertDataItems _ _ => true
  | _ => false

/-- The placeholder collection name of `updateContextWithDataSet`: the
concatenation (via `reduce` with `concatNames`) of all current collection
names followed by all requested collection names. -/
def placeholderName (current requested : List Collection) : String :=
  current.foldl (fun nameAcc collection => nameAcc ++ collection.name) "" ++
    requested.foldl (fun nameAcc collection => nameAcc ++ collection.name) ""

/-- The request list built by `updateContextWithDataSet` before the single
`callMultiple` submission: delete-all-cases for every current collection;
then, if the normalized requested collections differ from the current
ones, create the placeholder collection, delete every current collection,
create the requested collections, and delete the placeholder; finally
insert the caller's records. -/
def updateRequests (context : DataContext) (contextName : String)
    (dataset : Dataset) : List Request :=
  let base := context.collections.map fun collection =>
    Request.deleteAllCases contextName collection.name
  let normalizedCollections := dataset.collections.map fillCollectionWithDefaults
  if collectionsEqual context.collections normalizedCollections then
    base ++ [Request.insertDataItems contextName dataset.records]
  else
    let uniqueName := placeholderName context.collections dataset.collections
    base ++
      [Request.createCollections contextName [⟨uniqueName, none, some []⟩]] ++
      (context.collections.map fun collection =>
        Request.deleteCollection contextName collection.name) ++
      [Request.createCollections contextName dataset.collections] ++
      [Request.deleteCollection contextName uniqueName] ++
      [Request.insertDataItems contextName dataset.records]

/-- The response scan at the end of `updateContextWithDataSet`: iterate
over the responses in order and throw one aggregate error naming the
context at the first non-success response. -/
def processUpdateResponses (contextName : String) :
    List CodapResponse → Except String Unit
  | [] => Except.ok ()
  | response :: rest =>
    if response.success then processUpdateResponses contextName rest
    else Except.error ("Failed to update " ++ contextName)

/-- `updateContextWithDataSet`: build the request list, submit it as one
multi-call to the transport (the `transport` argument models
`callMultiple`, taking the whole batch and yielding one response per
request), then scan the responses.  The current context (fetched via
`getDataContext` in the source) is passed in as `context`. -/
def updateContextWithDataSet (context : DataContext) (contextName : String)
    (dataset : Dataset) (transport : List Request → List CodapResponse) :
    Except String Unit :=
  let requests := updateRequests context contextName dataset
  let responses := transport requests
  processUpdateResponses contextName responses

/-! ## Context/Case access façade -/

/-- `GetContextResponse` for `getDataContext`: success flag plus the raw
context in `values`. -/
structure GetContextResponse where
  success : Bool
  values : DataContext

/-- The payload of a `GetCaseResponse` (`response.values.case` in the
source; the field `case` is spelled `case_` as `case` is reserved). -/
structure GetCaseValues where
  case_ : ReturnedCase

/-- `GetCaseResponse` for `getCaseById`. -/
structure GetCaseResponse where
  success : Bool
  values : GetCaseValues

/-- `getDataContext`: consult the context-schema cache first and return
the hit without a remote call; on a miss issue one remote get (`response`
is the reply the transport delivers), and on success normalize the
returned context, store it in the cache, and return it; on failure reject
with an error naming the context.  The result is the outcome, the cache
state afterwards, and the number of remote calls issued. -/
def getDataContext (contextName : String) (response : GetContextResponse)
    (st : CacheState) : Except String DataContext × CacheState × Nat :=
  match Cache.getContext contextName st with
  | some cached => (Except.ok cached, st, 0)
  | none =>
    if response.success then
      let context := normalizeDataContext response.values
      (Except.ok context, Cache.setContext contextName context st, 1)
    else
      (Except.error ("Failed to get context " ++ contextName), st, 1)

/-- `getCaseById`: consult the case cache first and return the hit without
a remote call; on a miss issue one remote get, and on success store the
returned case in the case cache and return it; on failure reject with an
error naming the context and id. -/
def getCaseById (context : String) (id : Nat) (response : GetCaseResponse)
    (st : CacheState) : Except String ReturnedCase × CacheState × Nat :=
  match Cache.getCase id st with
  | some cached => (Except.ok cached, st, 0)
  | none =>
    if response.success then
      let result := response.values.case_
      (Except.ok result, Cache.setCase context id result st, 1)
    else
      (Except.error ("Failed to get case in " ++ context ++ " with id " ++
        toString id), st, 1)

/-! ## Notification router (`codapRequestHandler` in the endpoint module) -/

/-- `ContextChangeOperation` from the types module (not in src/): the
operation kinds named by the endpoint module. -/
inductive ContextChangeOperation
  | updateCases
  | createCases
  | deleteCases
  | moveCases
  | createAttribute
  | updateAttribute
  | deleteAttribute
  | moveAttribute
  | updateCollection
  | createCollection
  | deleteCollection
  | dependentCases
  | hideAttribute
  | unhideAttribute
  | updateContext
deriving DecidableEq, Repr

/-- `mutatingOperations` from the endpoint module: every operation kind
except `updateContext`. -/
def mutatingOperations : List ContextChangeOperation :=
  [ContextChangeOperation.updateCases,
   ContextChangeOperation.createCases,
   ContextChangeOperation.deleteCases,
   ContextChangeOperation.moveCases,
   ContextChangeOperation.createAttribute,
   ContextChangeOperation.updateAttribute,
   ContextChangeOperation.deleteAttribute,
   ContextChangeOperation.moveAttribute,
   ContextChangeOperation.updateCollection,
   ContextChangeOperation.createCollection,
   ContextChangeOperation.deleteCollection,
   ContextChangeOperation.dependentCases,
   ContextChangeOperation.hideAttribute,
   ContextChangeOperation.unhideAttribute]

/-- The result payload of a change operation; `caseIDs` is present only
when the payload carries an array of case ids (the `Array.isArray` check
in the source). -/
structure ChangeResult where
  caseIDs : Option (List Nat)
deriving DecidableEq, Repr

/-- One entry of a context-change notification batch: an operation kind
and an optional result payload (`value.result?.caseIDs` in the source). -/
structure ChangeValue where
  operation : ContextChangeOperation
  result : Option ChangeResult
deriving DecidableEq, Repr

/-- Observable listener invocations performed by the handler (the
listeners module is not in src/; `updateListeners name` stands for
`callUpdateListenersForContext(name)` and `allContextListeners` for
`callAllContextListeners()`). -/
inductive Effect
  | updateListeners (contextName : String)
  | allContextListeners
deriving DecidableEq, Repr

/-- One iteration of the `for (const value of command.values)` loop:
update the two flags and invalidate the case cache for case-deleted /
case-updated operations whose result payload lists case ids. -/
def changeStep (acc : Bool × Bool × CacheState) (value : ChangeValue) :
    Bool × Bool × CacheState :=
  let contextUpdate := acc.1 || mutatingOperations.contains value.operation
  let contextListUpdate := acc.2.1 ||
    value.operation == ContextChangeOperation.updateContext
  let st :=
    if value.operation == ContextChangeOperation.deleteCases ||
        value.operation == ContextChangeOperation.updateCases then
      match value.result with
      | some r =>
        match r.caseIDs with
        | some caseIDs => caseIDs.foldl (fun s i => Cache.invalidateCase i s) acc.2.2
        | none => acc.2.2
      | none => acc.2.2
    else acc.2.2
  (contextUpdate, contextListUpdate, st)

/-- The body of the context-change branch of `codapRequestHandler` (lines
816–851 of the endpoint module): scan the batch once, then invalidate the
context and call its listeners if any operation was mutating, and call
the all-contexts listeners if any operation was `updateContext`. -/
def handleContextChanges (contextName : String) (values : List ChangeValue)
    (st : CacheState) : CacheState × List Effect :=
  let scanned := values.foldl changeStep (false, false, st)
  let contextUpdate := scanned.1
  let contextListUpdate := scanned.2.1
  let st1 := scanned.2.2
  let st2 := if contextUpdate then Cache.invalidateContext contextName st1 else st1
  let effects :=
    (if contextUpdate then [Effect.updateListeners contextName] else []) ++
      (if contextListUpdate then [Effect.allContextListeners] else [])
  (st2, effects)

/-- `CodapActions` from the types module (not in src/). -/
inductive CodapActions
  | get
  | create
  | update
  | delete
  | notify
deriving DecidableEq, Repr

/-- `DocumentChangeOperations` from the types module (not in src/). -/
inductive DocumentChangeOperations
  | dataContextCountChanged
deriving DecidableEq, Repr

/-- The `values` field of a host-initiated command: either an array of
change operations, a document-change payload carrying an `operation`
field, or some other (possibly malformed) shape. -/
inductive CommandValues
  | listValues (values : List ChangeValue)
  | docValues (operation : DocumentChangeOperations)
  | otherValues
deriving DecidableEq, Repr

/-- The `operation` field of a command's `values`, when it has one. -/
def CommandValues.operation : CommandValues → Option DocumentChangeOperations
  | .docValues op => some op
  | _ => none

/-- A host-initiated command. -/
structure CodapInitiatedCommand where
  action : CodapActions
  resource : String
  values : CommandValues

/-- Modelled from the spec: the resource-identifier constants of
`CodapInitiatedResource` in the types module (not in src/); per-context
notification resources start with the context-change constant and carry
the context name in a bracketed segment. -/
def documentChangeNoticeResource : String := "documentChangeNotice"

def dataContextChangeNoticeResource : String := "dataContextChangeNotice"

/-- The context-name extraction of the handler:
`resource.slice(resource.search("\\x5b") + 1, resource.length - 1)` — the
characters strictly between the first opening bracket (position 0 when
none exists, as `search` yields -1) and the final character. -/
def extractContextName (resource : String) : String :=
  let cs := resource.toList
  let start := (((cs.findIdx? fun c => c = '[').map fun i => i + 1).getD 0)
  String.mk ((cs.drop start).dropLast)

/-- `codapRequestHandler`: acknowledge non-notify commands immediately;
call the all-contexts listeners on a document-change notice announcing a
context-count change; process a context-change notice whose values are an
array via `handleContextChanges`; acknowledge every command, malformed
ones included, with a success response. -/
def codapRequestHandler (command : CodapInitiatedCommand) (st : CacheState) :
    CacheState × List Effect × CodapResponse :=
  if command.action ≠ CodapActions.notify then (st, [], ⟨true⟩)
  else if command.resource = documentChangeNoticeResource ∧
      command.values.operation = some DocumentChangeOperations.dataContextCountChanged
    then (st, [Effect.allContextListeners], ⟨true⟩)
  else
    match command.values with
    | CommandValues.listValues values =>
      if command.resource.startsWith dataContextChangeNoticeResource then
        let contextName := extractContextName command.resource
        let handled := handleContextChanges contextName values st
        (handled.1, handled.2, ⟨true⟩)
      else (st, [], ⟨true⟩)
    | _ => (st, [], ⟨true⟩)

/-! ## Theorems -/

/-- C1: the spec claims the flattened record merges so that descendant
values take precedence over ancestor values, with the chain
root→mid→leaf valued `\x7ba:1\x7d`, `\x7ba:2,b:2\x7d`, `\x7bb:3,c:3\x7d`
flattening to `\x7ba:2,b:3,c:3\x7d`.  The source spreads the parent's
flattened record second, so the ancestor wins: the chain flattens to
`\x7ba:1,b:2,c:3\x7d`, refuting the claim. -/
theorem dataItemFromChildCase_descendant_precedence_counterexample :
    Option.map (fun r => (r "a", r "b", r "c"))
        (dataItemFromChildCase chainLookup 3 leafCase) =
      some (some 1, some 2, some 3) ∧
    Option.map (fun r => (r "a", r "b", r "c"))
        (dataItemFromChildCase chainLookup 3 leafCase) ≠
      some (some 2, some 3, some 3) := by
  constructor
  · rfl
  · intro h
    have h1 : Option.map (fun r => (r "a", r "b", r "c"))
        (dataItemFromChildCase chainLookup 3 leafCase) =
          some ((some 1 : Option Int), (some 2 : Option Int),
            (some 3 : Option Int)) := rfl
    rw [h1] at h
    simp at h

/-- C1 (amended): flattening a case with a parent merges the case's own
values with the recursively flattened parent record so that ancestor
values take precedence over descendant values sharing a key, while
descendant-only keys survive; in particular the example chain flattens to
`\x7ba:1,b:2,c:3\x7d`. -/
theorem dataItemFromChildCase_ancestor_precedence
    (lookup : Nat → Option ReturnedCase) (fuel : Nat) (c p : ReturnedCase)
    (pid : Nat) (pr : FlatRecord)
    (hp : c.parent = some pid) (hl : lookup pid = some p)
    (hrec : dataItemFromChildCase lookup fuel p = some pr) :
    dataItemFromChildCase lookup (fuel + 1) c = some (spreadMerge c.values pr) ∧
    (∀ k v, pr k = some v → spreadMerge c.values pr k = some v) ∧
    (∀ k, pr k = none → spreadMerge c.values pr k = c.values k) ∧
    Option.map (fun r => (r "a", r "b", r "c"))
        (dataItemFromChildCase chainLookup 3 leafCase) =
      some (some 1, some 2, some 3) := by
  refine ⟨?_, ?_, ?_, rfl⟩
  · simp [dataItemFromChildCase, hp, hl, hrec]
  · intro k v hkv
    simp [spreadMerge, hkv]
  · intro k hk
    simp [spreadMerge, hk]

theorem dataItemFromChildCase_ancestor_precedence_witness :
    dataItemFromChildCase chainLookup 3 leafCase =
      some (spreadMerge leafCase.values (spreadMerge midCase.values rootCase.values)) :=
  (dataItemFromChildCase_ancestor_precedence chainLookup 2 leafCase midCase 2
    (spreadMerge midCase.values rootCase.values) rfl rfl rfl).1

/-- The response scan of `updateContextWithDataSet` errors exactly when
some response in the batch is non-success, with the single aggregate
message naming the context. -/
lemma processUpdateResponses_eq (contextName : String)
    (responses : List CodapResponse) :
    processUpdateResponses contextName responses =
      if responses.any fun r => !r.success then
        Except.error ("Failed to update " ++ contextName)
      else Except.ok () := by
  induction responses with
  | nil => rfl
  | cons r rest ih =>
    by_cases h : r.success <;>
      simp [processUpdateResponses, h, ih]

/-- C5: after the batched responses return, they are scanned in order;
the caller gets exactly one aggregate error naming the target context
when any response is non-success (the outcome is a single `Except.error`,
never a crash and never a per-step result), and no error when all
responses are success. -/
theorem updateContextWithDataSet_failure_handling (context : DataContext)
    (contextName : String) (dataset : Dataset)
    (transport : List Request → List CodapResponse) :
    updateContextWithDataSet context contextName dataset transport =
      if (transport (updateRequests context contextName dataset)).any
          fun r => !r.success then
        Except.error ("Failed to update " ++ contextName)
      else Except.ok () :=
  processUpdateResponses_eq contextName _

/-- C8: `getDataContext` returns a cached schema with no remote call when
the cache holds one; on a miss it issues exactly one remote get and, on
success, normalizes the result, stores it in the context cache under the
requested name, and returns it. -/
theorem getDataContext_cache_protocol (contextName : String)
    (response : GetContextResponse) (st : CacheState) :
    (∀ ctx, st.contexts contextName = some ctx →
      getDataContext contextName response st = (Except.ok ctx, st, 0)) ∧
    (st.contexts contextName = none → response.success = true →
      getDataContext contextName response st =
        (Except.ok (normalizeDataContext response.values),
          Cache.setContext contextName (normalizeDataContext response.values) st,
          1) ∧
      ((getDataContext contextName response st).2.1).contexts contextName =
        some (normalizeDataContext response.values)) := by
  constructor
  · intro ctx hctx
    simp [getDataContext, Cache.getContext, hctx]
  · intro hmiss hsucc
    constructor
    · simp [getDataContext, Cache.getContext, hmiss, hsucc]
    · simp [getDataContext, Cache.getContext, Cache.setContext, hmiss, hsucc]

/-- A cache state with every store empty. -/
def emptyCache : CacheState := ⟨fun _ => none, fun _ => none, fun _ => none⟩

theorem getDataContext_cache_protocol_witness :
    getDataContext "ctx" ⟨true, ⟨"ctx", "t", []⟩⟩ emptyCache =
      (Except.ok (normalizeDataContext ⟨"ctx", "t", []⟩),
        Cache.setContext "ctx" (normalizeDataContext ⟨"ctx", "t", []⟩) emptyCache,
        1) ∧
    ((getDataContext "ctx" ⟨true, ⟨"ctx", "t", []⟩⟩ emptyCache).2.1).contexts "ctx" =
      some (normalizeDataContext ⟨"ctx", "t", []⟩) :=
  (getDataContext_cache_protocol "ctx" ⟨true, ⟨"ctx", "t", []⟩⟩ emptyCache).2 rfl rfl

/-- C10: on a cache miss with a non-success remote response, both
`getDataContext` and `getCaseById` reject with an error naming the target
entity and leave the cache untouched, so the entry for the key stays
absent. -/
theorem fetch_failure_writes_nothing (contextName : String) (id : Nat)
    (ctxResponse : GetContextResponse) (caseResponse : GetCaseResponse)
    (st : CacheState)
    (hctx : st.contexts contextName = none) (hcase : st.cases id = none)
    (h1 : ctxResponse.success = false) (h2 : caseResponse.success = false) :
    getDataContext contextName ctxResponse st =
      (Except.error ("Failed to get context " ++ contextName), st, 1) ∧
    getCaseById contextName id caseResponse st =
      (Except.error ("Failed to get case in " ++ contextName ++ " with id " ++
        toString id), st, 1) ∧
    ((getDataContext contextName ctxResponse st).2.1).contexts contextName =
      none ∧
    ((getCaseById contextName id caseResponse st).2.1).cases id = none := by
  refine ⟨?_, ?_, ?_, ?_⟩ <;>
    simp [getDataContext, getCaseById, Cache.getContext, Cache.getCase,
      hctx, hcase, h1, h2]

theorem fetch_failure_writes_nothing_witness :
    getDataContext "ctx" ⟨false, ⟨"ctx", "t", []⟩⟩ emptyCache =
      (Except.error ("Failed to get context " ++ "ctx"), emptyCache, 1) ∧
    getCaseById "ctx" 7 ⟨false, ⟨⟨7, none, fun _ => none⟩⟩⟩ emptyCache =
      (Except.error ("Failed to get case in " ++ "ctx" ++ " with id " ++
        toString 7), emptyCache, 1) ∧
    ((getDataContext "ctx" ⟨false, ⟨"ctx", "t", []⟩⟩ emptyCache).2.1).contexts
      "ctx" = none ∧
    ((getCaseById "ctx" 7 ⟨false, ⟨⟨7, none, fun _ => none⟩⟩⟩
      emptyCache).2.1).cases 7 = none :=
  fetch_failure_writes_nothing "ctx" 7 ⟨false, ⟨"ctx", "t", []⟩⟩
    ⟨false, ⟨⟨7, none, fun _ => none⟩⟩⟩ emptyCache rfl rfl rfl rfl

/-- C2: when the requested collections, after default-filling, equal the
context's current collections, the reconciler emits only the
delete-all-cases prologue and one data insert: zero collection-management
(create-collections / delete-collection) operations and exactly one
insert-data-items operation. -/
theorem updateRequests_equal_schema (context : DataContext)
    (contextName : String) (dataset : Dataset)
    (h : collectionsEqual context.collections
      (dataset.collections.map fillCollectionWithDefaults) = true) :
    updateRequests context contextName dataset =
      (context.collections.map fun collection =>
        Request.deleteAllCases contextName collection.name) ++
      [Request.insertDataItems contextName dataset.records] ∧
    (updateRequests context contextName dataset).countP
      Request.isCollectionManagement = 0 ∧
    (updateRequests context contextName dataset).countP
      Request.isInsertDataItems = 1 := by
  have heq : updateRequests context contextName dataset =
      (context.collections.map fun collection =>
        Request.deleteAllCases contextName collection.name) ++
      [Request.insertDataItems contextName dataset.records] := by
    simp [updateRequests, h]
  refine ⟨heq, ?_, ?_⟩ <;>
  · rw [heq]
    simp [List.countP_append, List.countP_map, List.countP_cons,
      Request.isCollectionManagement, Request.isInsertDataItems,
      Function.comp, List.countP_eq_zero]

/-- An example context whose single collection "A" is in normalized form. -/
def exampleContext : DataContext := ⟨"ctx", "ctx", [⟨"A", some [], some []⟩]⟩

/-- A dataset whose collections normalize to exactly `exampleContext`'s. -/
def exampleEqualDataset : Dataset := ⟨[⟨"A", none, none⟩], [[("x", 1)]]⟩

theorem updateRequests_equal_schema_witness :
    updateRequests exampleContext "ctx" exampleEqualDataset =
      (exampleContext.collections.map fun collection =>
        Request.deleteAllCases "ctx" collection.name) ++
      [Request.insertDataItems "ctx" exampleEqualDataset.records] ∧
    (updateRequests exampleContext "ctx" exampleEqualDataset).countP
      Request.isCollectionManagement = 0 ∧
    (updateRequests exampleContext "ctx" exampleEqualDataset).countP
      Request.isInsertDataItems = 1 :=
  updateRequests_equal_schema exampleContext "ctx" exampleEqualDataset (by decide)

/-- C3: when the requested collections differ from the current ones after
default-filling, the emitted batch is, in this exact order:
delete-all-cases for every current collection, create-collections with
the single placeholder collection, delete-collection for every current
collection, create-collections with the full requested sequence,
delete-collection for the placeholder, and insert-data-items with the
caller's records; `updateContextWithDataSet` submits the whole list as
one ordered multi-call. -/
theorem updateRequests_changed_schema (context : DataContext)
    (contextName : String) (dataset : Dataset)
    (h : collectionsEqual context.collections
      (dataset.collections.map fillCollectionWithDefaults) = false) :
    updateRequests context contextName dataset =
      (context.collections.map fun collection =>
        Request.deleteAllCases contextName collection.name) ++
      [Request.createCollections contextName
        [⟨placeholderName context.collections dataset.collections, none, some []⟩]] ++
      (context.collections.map fun collection =>
        Request.deleteCollection contextName collection.name) ++
      [Request.createCollections contextName dataset.collections] ++
      [Request.deleteCollection contextName
        (placeholderName context.collections dataset.collections)] ++
      [Request.insertDataItems contextName dataset.records] := by
  simp [updateRequests, h]

/-- A dataset whose collections differ from `exampleContext`'s. -/
def exampleChangedDataset : Dataset := ⟨[⟨"B", none, none⟩], []⟩

theorem updateRequests_changed_schema_witness :
    updateRequests exampleContext "ctx" exampleChangedDataset =
      (exampleContext.collections.map fun collection =>
        Request.deleteAllCases "ctx" collection.name) ++
      [Request.createCollections "ctx"
        [⟨placeholderName exampleContext.collections
          exampleChangedDataset.collections, none, some []⟩]] ++
      (exampleContext.collections.map fun collection =>
        Request.deleteCollection "ctx" collection.name) ++
      [Request.createCollections "ctx" exampleChangedDataset.collections] ++
      [Request.deleteCollection "ctx"
        (placeholderName exampleContext.collections
          exampleChangedDataset.collections)] ++
      [Request.insertDataItems "ctx" exampleChangedDataset.records] :=
  updateRequests_changed_schema exampleContext "ctx" exampleChangedDataset
    (by decide)

/-- C4: the claim that the placeholder name never equals any current or
requested collection name fails when the requested collection list is
empty: the sequences differ, yet the placeholder name is exactly the sole
current collection's name, and the reconciler emits a create-collections
request whose placeholder shares that name. -/
theorem placeholderName_collision_counterexample :
    collectionsEqual [⟨"A", some [], some []⟩]
      (([] : List Collection).map fillCollectionWithDefaults) = false ∧
    placeholderName [⟨"A", some [], some []⟩] [] = "A" ∧
    "A" ∈ ([⟨"A", some [], some []⟩] : List Collection).map Collection.name ∧
    Request.createCollections "ctx" [⟨"A", none, some []⟩] ∈
      updateRequests ⟨"ctx", "ctx", [⟨"A", some [], some []⟩]⟩ "ctx" ⟨[], []⟩ := by
  refine ⟨by decide, by decide, by decide, ?_⟩
  decide

/-- The concatenated-name fold grows the accumulator by the total length
of the collection names. -/
lemma foldl_concatNames_length (l : List Collection) (s : String) :
    (l.foldl (fun nameAcc collection => nameAcc ++ collection.name) s).length =
      s.length + ((l.map fun collection => collection.name.length).sum) := by
  induction l generalizing s with
  | nil => simp
  | cons c l ih =>
    rw [List.foldl_cons, ih, String.length_append]
    simp
    omega

/-- A nonempty string has positive length. -/
lemma String.length_pos_of_ne_empty {s : String} (h : s ≠ "") : 0 < s.length := by
  cases s with
  | mk data =>
    cases data with
    | nil => simp at h
    | cons c cs => simp [String.length]

/-- C4 (amended): provided the current and requested collection lists are
both nonempty and every collection name is nonempty, the placeholder name
— the concatenation of all current names followed by all requested names
— differs from every current and requested collection name. -/
theorem placeholderName_fresh (current requested : List Collection)
    (hcur : current ≠ []) (hreq : requested ≠ [])
    (hnames : ∀ c ∈ current ++ requested, c.name ≠ "") :
    ∀ c ∈ current ++ requested, placeholderName current requested ≠ c.name := by
  intro c hc heq
  have hlen : (placeholderName current requested).length =
      ((current.map fun collection => collection.name.length).sum) +
      ((requested.map fun collection => collection.name.length).sum) := by
    simp [placeholderName, String.length_append, foldl_concatNames_length]
  have hcontra := congrArg String.length heq
  rw [hlen] at hcontra
  rcases List.mem_append.mp hc with hmem | hmem
  · -- the colliding name is a current collection's: the requested side
    -- contributes at least one character beyond it
    have hle : c.name.length ≤
        ((current.map fun collection => collection.name.length).sum) :=
      List.single_le_sum (fun _ _ => Nat.zero_le _) _
        (List.mem_map_of_mem _ hmem)
    obtain ⟨r, hr⟩ := List.exists_mem_of_ne_nil requested hreq
    have hrpos : 0 < r.name.length :=
      String.length_pos_of_ne_empty (hnames r (List.mem_append.mpr (Or.inr hr)))
    have hrle : r.name.length ≤
        ((requested.map fun collection => collection.name.length).sum) :=
      List.single_le_sum (fun _ _ => Nat.zero_le _) _
        (List.mem_map_of_mem _ hr)
    omega
  · -- symmetric: the current side contributes at least one character
    have hle : c.name.length ≤
        ((requested.map fun collection => collection.name.length).sum) :=
      List.single_le_sum (fun _ _ => Nat.zero_le _) _
        (List.mem_map_of_mem _ hmem)
    obtain ⟨r, hr⟩ := List.exists_mem_of_ne_nil current hcur
    have hrpos : 0 < r.name.length :=
      String.length_pos_of_ne_empty (hnames r (List.mem_append.mpr (Or.inl hr)))
    have hrle : r.name.length ≤
        ((current.map fun collection => collection.name.length).sum) :=
      List.single_le_sum (fun _ _ => Nat.zero_le _) _
        (List.mem_map_of_mem _ hr)
    omega

theorem placeholderName_fresh_witness :
    placeholderName [⟨"A", some [], some []⟩] [⟨"B", none, none⟩] ≠ "A" :=
  placeholderName_fresh [⟨"A", some [], some []⟩] [⟨"B", none, none⟩]
    (by decide) (by decide) (by decide) ⟨"A", some [], some []⟩ (by decide)

/-- A change operation invalidates case id `i` when it is a case-deleted
or case-updated operation whose result payload lists `i`. -/
def opAffectsCase (v : ChangeValue) (i : Nat) : Prop :=
  (v.operation = ContextChangeOperation.deleteCases ∨
    v.operation = ContextChangeOperation.updateCases) ∧
  i ∈ (v.result.bind ChangeResult.caseIDs).getD []

instance (v : ChangeValue) (i : Nat) : Decidable (opAffectsCase v i) := by
  unfold opAffectsCase
  infer_instance

lemma invalidateCase_foldl_cases (ids : List Nat) (st : CacheState) (i : Nat) :
    (ids.foldl (fun s j => Cache.invalidateCase j s) st).cases i =
      if i ∈ ids then none else st.cases i := by
  induction ids generalizing st with
  | nil => simp
  | cons j ids ih =>
    rw [List.foldl_cons, ih]
    by_cases hij : i ∈ ids
    · simp [hij]
    · by_cases hj : i = j <;> simp [hij, hj, Cache.invalidateCase]

lemma invalidateCase_foldl_preserves (ids : List Nat) (st : CacheState) :
    (ids.foldl (fun s j => Cache.invalidateCase j s) st).contexts = st.contexts ∧
    (ids.foldl (fun s j => Cache.invalidateCase j s) st).records = st.records := by
  induction ids generalizing st with
  | nil => exact ⟨rfl, rfl⟩
  | cons j ids ih =>
    rw [List.foldl_cons]
    exact ⟨(ih _).1, (ih _).2⟩

lemma changeStep_cases (acc : Bool × Bool × CacheState) (v : ChangeValue)
    (i : Nat) :
    ((changeStep acc v).2.2).cases i =
      if opAffectsCase v i then none else acc.2.2.cases i := by
  by_cases hop : (v.operation == ContextChangeOperation.deleteCases ||
      v.operation == ContextChangeOperation.updateCases) = true
  · cases hres : v.result with
    | none => simp [changeStep, opAffectsCase, hop, hres]
    | some r =>
      cases hids : r.caseIDs with
      | none => simp [changeStep, opAffectsCase, hop, hres, hids]
      | some ids =>
        have hop' : v.operation = ContextChangeOperation.deleteCases ∨
            v.operation = ContextChangeOperation.updateCases := by
          simpa using hop
        simp [changeStep, opAffectsCase, hop, hres, hids,
          invalidateCase_foldl_cases, hop']
  · have hop' : ¬(v.operation = ContextChangeOperation.deleteCases ∨
        v.operation = ContextChangeOperation.updateCases) := by
      simpa using hop
    simp [changeStep, opAffectsCase, hop, hop']

lemma changeStep_preserves (acc : Bool × Bool × CacheState) (v : ChangeValue) :
    ((changeStep acc v).2.2).contexts = acc.2.2.contexts ∧
    ((changeStep acc v).2.2).records = acc.2.2.records := by
  unfold changeStep
  split
  · split
    · split
      · exact invalidateCase_foldl_preserves _ _
      · exact ⟨rfl, rfl⟩
    · exact ⟨rfl, rfl⟩
  · exact ⟨rfl, rfl⟩

lemma foldl_changeStep_fst (values : List ChangeValue)
    (acc : Bool × Bool × CacheState) :
    (values.foldl changeStep acc).1 =
      (acc.1 || values.any fun v => mutatingOperations.contains v.operation) := by
  induction values generalizing acc with
  | nil => simp
  | cons v vs ih =>
    rw [List.foldl_cons, ih]
    simp [changeStep, List.any_cons, Bool.or_assoc]

lemma foldl_changeStep_snd (values : List ChangeValue)
    (acc : Bool × Bool × CacheState) :
    (values.foldl changeStep acc).2.1 =
      (acc.2.1 || values.any fun v =>
        v.operation == ContextChangeOperation.updateContext) := by
  induction values generalizing acc with
  | nil => simp
  | cons v vs ih =>
    rw [List.foldl_cons, ih]
    simp [changeStep, List.any_cons, Bool.or_assoc]

lemma foldl_changeStep_cases (values : List ChangeValue)
    (acc : Bool × Bool × CacheState) (i : Nat) :
    ((values.foldl changeStep acc).2.2).cases i =
      if ∃ v ∈ values, opAffectsCase v i then none else acc.2.2.cases i := by
  induction values generalizing acc with
  | nil => simp
  | cons v vs ih =>
    rw [List.foldl_cons, ih, changeStep_cases]
    by_cases hv : opAffectsCase v i
    · by_cases hvs : ∃ v' ∈ vs, opAffectsCase v' i <;>
        simp [hv, hvs, List.exists_mem_cons_iff]
    · by_cases hvs : ∃ v' ∈ vs, opAffectsCase v' i <;>
        simp [hv, hvs, List.exists_mem_cons_iff]

lemma foldl_changeStep_preserves (values : List ChangeValue)
    (acc : Bool × Bool × CacheState) :
    ((values.foldl changeStep acc).2.2).contexts = acc.2.2.contexts ∧
    ((values.foldl changeStep acc).2.2).records = acc.2.2.records := by
  induction values generalizing acc with
  | nil => exact ⟨rfl, rfl⟩
  | cons v vs ih =>
    rw [List.foldl_cons]
    refine ⟨?_, ?_⟩
    · rw [(ih _).1, (changeStep_preserves acc v).1]
    · rw [(ih _).2, (changeStep_preserves acc v).2]

/-- C7: for every context-change batch, exactly the case ids listed in
the result payloads of its case-deleted / case-updated operations are
invalidated from the case store — any other case entry is left exactly as
it was — regardless of what other operation kinds appear in the batch. -/
theorem handleContextChanges_case_invalidation (contextName : String)
    (values : List ChangeValue) (st : CacheState) (i : Nat) :
    ((handleContextChanges contextName values st).1).cases i =
      if ∃ v ∈ values, opAffectsCase v i then none else st.cases i := by
  have h := foldl_changeStep_cases values (false, false, st) i
  simp only [handleContextChanges]
  split
  · exact h
  · exact h

/-- C6: a batch containing only schema/data-affecting operations
invalidates the context's schema and record-set cache entries and calls
exactly the listeners for that context name (once), never the
all-contexts listeners; a batch containing only the update-context
operation calls the all-contexts listeners and leaves the cache entirely
untouched. -/
theorem handleContextChanges_classification (contextName : String)
    (values : List ChangeValue) (st : CacheState) (hne : values ≠ []) :
    ((∀ v ∈ values, v.operation ∈ mutatingOperations) →
      (handleContextChanges contextName values st).2 =
        [Effect.updateListeners contextName] ∧
      ((handleContextChanges contextName values st).1).contexts contextName =
        none ∧
      ((handleContextChanges contextName values st).1).records contextName =
        none) ∧
    ((∀ v ∈ values, v.operation = ContextChangeOperation.updateContext) →
      (handleContextChanges contextName values st).2 =
        [Effect.allContextListeners] ∧
      (handleContextChanges contextName values st).1 = st) := by
  constructor
  · intro hall
    obtain ⟨v0, hv0⟩ := List.exists_mem_of_ne_nil values hne
    have hcu : (values.foldl changeStep (false, false, st)).1 = true := by
      rw [foldl_changeStep_fst]
      refine List.any_eq_true.mpr ⟨v0, hv0, ?_⟩
      simpa [List.contains, List.elem_iff] using hall v0 hv0
    have hclu : (values.foldl changeStep (false, false, st)).2.1 = false := by
      rw [foldl_changeStep_snd]
      simp only [Bool.false_or]
      rw [List.any_eq_false]
      intro v hv
      simp only [beq_iff_eq]
      intro hop
      have := hall v hv
      rw [hop] at this
      exact absurd this (by decide)
    refine ⟨?_, ?_, ?_⟩ <;>
      simp [handleContextChanges, hcu, hclu, Cache.invalidateContext]
  · intro hall
    have hcu : (values.foldl changeStep (false, false, st)).1 = false := by
      rw [foldl_changeStep_fst]
      simp only [Bool.false_or]
      rw [List.any_eq_false]
      intro v hv hop
      have hmem : v.operation ∈ mutatingOperations := by
        simpa [List.contains, List.elem_iff] using hop
      rw [hall v hv] at hmem
      exact absurd hmem (by decide)
    have hclu : (values.foldl changeStep (false, false, st)).2.1 = true := by
      obtain ⟨v0, hv0⟩ := List.exists_mem_of_ne_nil values hne
      rw [foldl_changeStep_snd]
      exact List.any_eq_true.mpr ⟨v0, hv0, by simp [hall v0 hv0]⟩
    have hstate : (values.foldl changeStep (false, false, st)).2.2 = st := by
      ext1
      · exact (foldl_changeStep_preserves values (false, false, st)).1
      · exact (foldl_changeStep_preserves values (false, false, st)).2
      · funext i
        rw [foldl_changeStep_cases values (false, false, st) i, if_neg]
        intro ⟨v, hv, hop, _⟩
        rcases hop with hop | hop <;> rw [hall v hv] at hop <;> exact absurd hop (by decide)
    constructor
    · simp [handleContextChanges, hcu, hclu]
    · simp [handleContextChanges, hcu, hclu, hstate]

theorem handleContextChanges_classification_witness :
    (handleContextChanges "ctx"
        [⟨ContextChangeOperation.createAttribute, none⟩] emptyCache).2 =
      [Effect.updateListeners "ctx"] ∧
    ((handleContextChanges "ctx"
        [⟨ContextChangeOperation.createAttribute, none⟩] emptyCache).1).contexts
      "ctx" = none ∧
    ((handleContextChanges "ctx"
        [⟨ContextChangeOperation.createAttribute, none⟩] emptyCache).1).records
      "ctx" = none :=
  (handleContextChanges_classification "ctx"
      [⟨ContextChangeOperation.createAttribute, none⟩] emptyCache
      (by decide)).1
    (by intro v hv; simp at hv; rw [hv]; decide)

/-- C9: the notification handler is total and, whatever the shape of the
incoming host message — non-notify action, unrecognized resource, or
non-array values on a context-change notice — it never raises an error
and always acknowledges with a success response. -/
theorem codapRequestHandler_always_succeeds (command : CodapInitiatedCommand)
    (st : CacheState) :
    ((codapRequestHandler command st).2.2).success = true := by
  rcases command with ⟨action, resource, values⟩
  rw [codapRequestHandler]
  dsimp only
  split
  · rfl
  · split
    · rfl
    · cases values with
      | listValues vs =>
        dsimp only
        split <;> rfl
      | docValues op => rfl
      | otherValues => rfl

end CodapPhone
